import Mathlib

/-!
# lyiapf: Internet Archive item metadata to podcast feed

A shallow embedding of `ia.go` and of `getData` in `main.go`.  Go `string` values are
Lean `String`s, Go `int` values are `Int`s, slices are `List`s and a method with a pointer
receiver is a function returning the updated receiver.  What the code calls outside the
repository and cannot be written as a function of its arguments alone (`encoding/json`,
`net/http`, package `podcast`) is a parameter.

The type `F` stands for Go's `float64`: its arithmetic (`+`, `*` and the conversion
`Nat.cast` of an integer constant) and `strconv.ParseFloat` are parameters, and no law
of arithmetic is assumed of them, so what is proved about `convertLength` does not
depend on how `float64` rounds.
-/

namespace Lyiapf

/-! ## Data model (`ia.go`, lines 17-61 and 168-173) -/

/-- Go: `type IASource string`. -/
abbrev IASource := String

/-- Go: `IAMetadataPrefix`. -/
def IAMetadataPrefix : String := "https://archive.org/metadata/"

/-- Go: `IAItemPrefix`. -/
def IAItemPrefix : String := "https://archive.org/details/"

/-- Go: `IASourceOriginal`. -/
def IASourceOriginal : IASource := "original"

/-- Go: `IASourceDerivative`. -/
def IASourceDerivative : IASource := "derivative"

/-- Go: `type IAMetadata struct`. -/
structure IAMetadata where
  Identifier : String
  Description : String
  Title : String
deriving DecidableEq, Repr

/-- Go: `type IAFiles struct`; `F` is the type of `Length` (`float64`). -/
structure IAFiles (F : Type) where
  Name : String
  Title : String
  Track : String
  Artist : String
  Album : String
  Source : IASource
  MTime : Int
  Size : Int
  Length : F
  SHA1 : String
deriving DecidableEq, Repr

/-- Go: `type IA struct`. -/
structure IA (F : Type) where
  Created : Int
  LastUpdate : Int
  Files : List (IAFiles F)
  Dir : String
  Server : String
  Servers : List String
  Metadata : IAMetadata
deriving DecidableEq, Repr

/-- The zero value of `IAFiles`, as Go allocates it before decoding into it. -/
def IAFiles.zero {F : Type} [NatCast F] : IAFiles F :=
  { Name := "", Title := "", Track := "", Artist := "", Album := "", Source := "",
    MTime := 0, Size := 0, Length := ((0 : Nat) : F), SHA1 := "" }

/-! ## `OnlyOriginals` (`ia.go`, lines 32-42) -/

/-- The `for _, file := range ia.Files` loop of `OnlyOriginals`: `newFiles` is the
slice built so far, the second argument is what is left to visit. -/
def onlyOriginalsLoop {F : Type} : List (IAFiles F) → List (IAFiles F) → List (IAFiles F)
  | newFiles, [] => newFiles
  | newFiles, file :: rest =>
    if file.Source = IASourceOriginal then
      onlyOriginalsLoop (newFiles ++ [file]) rest
    else
      onlyOriginalsLoop newFiles rest

/-- Go: `func (ia *IA) OnlyOriginals()`; returns the item after the call. -/
def IA.OnlyOriginals {F : Type} (ia : IA F) : IA F :=
  { ia with Files := onlyOriginalsLoop [] ia.Files }

/-! ## `TitleDescription` (`ia.go`, lines 112-129) -/

/-- Go: `func (iaf *IAFiles) TitleDescription() (string, string)`. -/
def IAFiles.TitleDescription {F : Type} (iaf : IAFiles F) : String × String :=
  let title := if iaf.Title ≠ "" then iaf.Title else iaf.Name
  let description := if iaf.Album ≠ "" then iaf.Album else iaf.Name
  (title, description)

/-! ## Standard-library functions used by `ia.go` -/

deriving instance DecidableEq for Except

/-- The scan of `strings.Split`: `cur` holds the characters of the token being read
(in order), the second argument is the unread rest of the input. -/
def strings.splitLoop (sep : Char) : List Char → List Char → List String
  | cur, [] => [String.mk cur]
  | cur, c :: rest =>
    if c = sep then String.mk cur :: strings.splitLoop sep [] rest
    else strings.splitLoop sep (cur ++ [c]) rest

/-- Go standard library `strings.Split(s, sep)` for a separator of one ASCII character:
the substrings of `s` between the occurrences of `sep`, in order. -/
def strings.Split (s : String) (sep : Char) : List String :=
  strings.splitLoop sep [] s.data

/-- Go standard library `strings.HasSuffix(s, suffix)`. -/
def strings.HasSuffix (s suffix : String) : Bool :=
  suffix.data.isSuffixOf s.data

/-- The value of a string of decimal digits, most significant digit first. -/
def strconv.digitsValue (digits : List Char) : Nat :=
  digits.foldl (fun n ch => n * 10 + (ch.toNat - '0'.toNat)) 0

/-- Go standard library `strconv.Atoi(s)` where `int` has 64 bits: an optional sign
followed by one or more decimal digits, and a value that fits `int`; anything else is an
error (`invalid syntax` or `value out of range`). -/
def strconv.Atoi (s : String) : Except String Int :=
  let neg : Bool := s.data.head? = some '-'
  let digits : List Char :=
    match s.data with
    | '-' :: rest => rest
    | '+' :: rest => rest
    | all => all
  if digits = [] ∨ ¬ digits.all Char.isDigit = true then
    .error "invalid syntax"
  else
    let n := strconv.digitsValue digits
    if neg then
      if n ≤ 2 ^ 63 then .ok (-(n : Int)) else .error "value out of range"
    else
      if n < 2 ^ 63 then .ok (n : Int) else .error "value out of range"

/-- Go: `map[string]string`, as the list of its key/value pairs. -/
abbrev StringMap := List (String × String)

/-- Go: the map index expression `raw[key]`, the empty string when the key is missing. -/
def StringMap.get (raw : StringMap) (key : String) : String :=
  (raw.lookup key).getD ""

/-! ## `convertLength` (`ia.go`, lines 63-110) -/

/-- The errors `convertLength` builds with `fmt.Errorf`. -/
inductive LengthError where
  /-- Go: `fmt.Errorf("empty length")`. -/
  | emptyLength
  /-- Go: `fmt.Errorf("no length")`. -/
  | noLength
  /-- Go: `fmt.Errorf("converting %q: %v", in, err)`. -/
  | converting (inp : String) (err : String)
  /-- Go: `fmt.Errorf("converting %q[i]: %v", in, err)` for `i` = 0, 1, 2. -/
  | convertingAt (inp : String) (i : Nat) (err : String)
deriving DecidableEq, Repr

/-- Go: `func convertLength(in string) (float64, error)`.  `ParseFloat s` stands for
`strconv.ParseFloat(s, 64)`; the result is the pair the Go function returns, with `none`
for a `nil` error. -/
def convertLength {F : Type} [NatCast F] [Add F] [Mul F]
    (ParseFloat : String → Except String F) (inp : String) : F × Option LengthError :=
  if inp = "" then
    (((0 : Nat) : F), some .emptyLength)
  else
    let parts := strings.Split inp ':'
    if parts.length = 0 then
      (((0 : Nat) : F), some .noLength)
    else
      match parts with
      | [p0] =>
        match ParseFloat p0 with
        | .error err => (((0 : Nat) : F), some (.converting inp err))
        | .ok len => (len, none)
      | [p0, p1] =>
        match ParseFloat p0 with
        | .error err => (((0 : Nat) : F), some (.convertingAt inp 0 err))
        | .ok lenmin =>
          match ParseFloat p1 with
          | .error err => (((0 : Nat) : F), some (.convertingAt inp 1 err))
          | .ok len => (len + ((60 : Nat) : F) * lenmin, none)
      | [p0, p1, p2] =>
        match ParseFloat p0 with
        | .error err => (((0 : Nat) : F), some (.convertingAt inp 0 err))
        | .ok lenhour =>
          match ParseFloat p1 with
          | .error err => (((0 : Nat) : F), some (.convertingAt inp 1 err))
          | .ok lenmin =>
            match ParseFloat p2 with
            | .error err => (((0 : Nat) : F), some (.convertingAt inp 2 err))
            | .ok len =>
              (len + ((60 : Nat) : F) * lenmin + ((60 * 60 : Nat) : F) * lenhour, none)
      | _ => (((0 : Nat) : F), none)

/-! ## `UnmarshalJSON` (`ia.go`, lines 131-166) -/

/-- Go: `func (iaf *IAFiles) UnmarshalJSON(data []byte) error`.  `jsonUnmarshal data`
stands for `json.Unmarshal(data, &raw)` with `raw` a `map[string]string`.  The result is
the receiver after the call and the returned error (`none` for `nil`). -/
def IAFiles.UnmarshalJSON {F : Type} [NatCast F] [Add F] [Mul F]
    (jsonUnmarshal : List UInt8 → Except String StringMap)
    (ParseFloat : String → Except String F)
    (iaf : IAFiles F) (data : List UInt8) : IAFiles F × Option String :=
  match jsonUnmarshal data with
  | .error err => (iaf, some err)
  | .ok raw =>
    let iaf := { iaf with Name := raw.get "name" }
    let iaf := { iaf with Track := raw.get "track" }
    let iaf := { iaf with Title := raw.get "title" }
    let iaf := { iaf with Artist := raw.get "artist" }
    let iaf :=
      if raw.get "artist" = "" ∧ raw.get "creator" ≠ "" then
        { iaf with Artist := raw.get "creator" }
      else iaf
    let iaf := { iaf with Album := raw.get "album" }
    let iaf := { iaf with Source := raw.get "source" }
    let iaf :=
      match strconv.Atoi (raw.get "mtime") with
      | .ok mtime => { iaf with MTime := mtime }
      | .error _ => iaf
    let iaf :=
      match strconv.Atoi (raw.get "size") with
      | .ok size => { iaf with Size := size }
      | .error _ => iaf
    let iaf :=
      match convertLength ParseFloat (raw.get "length") with
      | (length, none) => { iaf with Length := length }
      | (_, some _) => iaf
    let iaf := { iaf with SHA1 := raw.get "sha1" }
    (iaf, none)

/-! ## `Feed` (`ia.go`, lines 199-242) -/

/-- Go standard library `upperhex` of `net/url`: the digit for a value below 16. -/
def url.upperhex (n : Nat) : Char :=
  "0123456789ABCDEF".data.getD n '0'

/-- Go standard library `url.shouldEscape(c, encodePathSegment)` on a byte: letters, digits,
`-_.~` and `$&+:=@` are kept, every other byte (so `/ ; , ?`, the space, `#`, `%` and
every byte of a character outside ASCII) is escaped. -/
def url.shouldEscape (c : UInt8) : Bool :=
  if ('a'.toNat ≤ c.toNat ∧ c.toNat ≤ 'z'.toNat) ∨ ('A'.toNat ≤ c.toNat ∧ c.toNat ≤ 'Z'.toNat)
      ∨ ('0'.toNat ≤ c.toNat ∧ c.toNat ≤ '9'.toNat) then
    false
  else if c.toNat ∈ ['-', '_', '.', '~'].map Char.toNat then
    false
  else if c.toNat ∈ ['$', '&', '+', ',', '/', ':', ';', '=', '?', '@'].map Char.toNat then
    c.toNat = '/'.toNat ∨ c.toNat = ';'.toNat ∨ c.toNat = ','.toNat ∨ c.toNat = '?'.toNat
  else
    true

/-- What `url.escape` writes for one byte: `%` and two hexadecimal digits when the byte is
escaped, the byte itself otherwise. -/
def url.escapeByte (c : UInt8) : List Char :=
  if url.shouldEscape c then
    ['%', url.upperhex (c.toNat >>> 4), url.upperhex (c.toNat &&& 15)]
  else
    [Char.ofNat c.toNat]

/-- Go standard library `url.PathEscape(s)`, over the bytes of the UTF-8 encoding of `s`. -/
def url.PathEscape (s : String) : String :=
  String.mk ((s.data.flatMap String.utf8EncodeChar).flatMap url.escapeByte)

/-- Go standard library `time.Time`, as the seconds and nanoseconds since the Unix epoch. -/
structure time.Time where
  sec : Int
  nsec : Int
deriving DecidableEq, Repr

/-- Go standard library `time.Unix(sec, nsec)`, for `nsec` within a second. -/
def time.Unix (sec nsec : Int) : time.Time :=
  { sec := sec, nsec := nsec }

/-- Package `podcast`: `type Author struct`. -/
structure podcast.Author where
  Name : String
  Email : String
deriving DecidableEq, Repr

/-- Package `podcast`: `type Enclosure struct`, the fields `AddEnclosure` sets;
`EnclosureType` is the field `Type`, a number. -/
structure podcast.Enclosure where
  URL : String
  Length : Int
  EnclosureType : Int
deriving DecidableEq, Repr

/-- Package `podcast`: `type Item struct`, the fields `Feed` sets; a pointer field is an
`Option`, `none` for `nil`. -/
structure podcast.Item where
  Title : String
  Description : String
  Author : Option podcast.Author
  Link : String
  PubDate : Option time.Time
  GUID : String
  Enclosure : Option podcast.Enclosure
deriving DecidableEq, Repr

/-- Package `podcast`: `func (i *Item) AddEnclosure(url, enclosureType, lengthInBytes)`. -/
def podcast.Item.AddEnclosure (i : podcast.Item) (url : String) (enclosureType : Int)
    (lengthInBytes : Int) : podcast.Item :=
  { i with Enclosure := some { URL := url, EnclosureType := enclosureType, Length := lengthInBytes } }

/-- The functions of package `podcast` that `Feed` calls on a feed of type `P`:
`podcast.New(title, link, description, pubDate, lastBuildDate)`, `(*Podcast).AddItem`,
which returns the feed with the item added or an error, and `(*Podcast).Encode`, which
returns what it wrote or an error.  They are parameters of `Feed`. -/
structure podcast.Package (P : Type) where
  New : String → String → String → Option time.Time → Option time.Time → P
  AddItem : P → podcast.Item → Except String P
  Encode : P → Except String String

/-- The test of the `continue` in `Feed`: the name ends in `.xml`, `.jpg` or `.sqlite`. -/
def IAFiles.skipped {F : Type} (entry : IAFiles F) : Bool :=
  strings.HasSuffix entry.Name ".xml" || strings.HasSuffix entry.Name ".jpg"
    || strings.HasSuffix entry.Name ".sqlite"

/-- The `podcast.Item` that the body of the loop of `Feed` builds for `entry`, enclosure
included. -/
def IA.feedItem {F : Type} (ia : IA F) (entry : IAFiles F) : podcast.Item :=
  let creationtime := time.Unix entry.MTime 0
  let (title, description) := entry.TitleDescription
  let item : podcast.Item :=
    { Title := title
      Description := description
      Author := some { Name := "", Email := entry.Artist }
      Link := "https://" ++ ia.Server ++ ia.Dir ++ "/" ++ url.PathEscape entry.Name
      PubDate := some creationtime
      GUID := entry.SHA1
      Enclosure := none }
  item.AddEnclosure ("https://" ++ ia.Server ++ ia.Dir ++ "/" ++ url.PathEscape entry.Name)
    0 entry.Size

/-- The `for _, entry := range ia.Files` loop of `Feed`: `feed` is the feed so far, the last
argument is what is left to visit; an error of `AddItem` ends the loop. -/
def IA.feedLoop {F P : Type} (pkg : podcast.Package P) (ia : IA F) :
    P → List (IAFiles F) → Except String P
  | feed, [] => .ok feed
  | feed, entry :: rest =>
    if entry.skipped then
      IA.feedLoop pkg ia feed rest
    else
      match pkg.AddItem feed (ia.feedItem entry) with
      | .error err => .error ("feed.AddItem: " ++ err)
      | .ok feed => IA.feedLoop pkg ia feed rest

/-- Go: `func (ia IA) Feed() (string, error)`; the result is the pair the Go function
returns, with `none` for a `nil` error. -/
def IA.Feed {F P : Type} (pkg : podcast.Package P) (ia : IA F) : String × Option String :=
  let pubDate := time.Unix ia.LastUpdate 0
  let feed := pkg.New ia.Metadata.Title (IAItemPrefix ++ ia.Metadata.Identifier)
    ia.Metadata.Description (some pubDate) none
  match IA.feedLoop pkg ia feed ia.Files with
  | .error err => ("", some err)
  | .ok feed =>
    match pkg.Encode feed with
    | .error err => ("", some ("feed.Encode: " ++ err))
    | .ok out => (out, none)

/-- An instance of the `podcast` parameters for evaluating `Feed` on concrete items: the
feed is the list of the items added so far, `AddItem` refuses an item without title or
description as the package does and appends any other, and `Encode` writes one line per
item, its title and its link. -/
def podcast.recorder : podcast.Package (List podcast.Item) where
  New := fun _ _ _ _ _ => []
  AddItem := fun feed item =>
    if item.Title = "" ∨ item.Description = "" then
      .error "Title and Description are required"
    else
      .ok (feed ++ [item])
  Encode := fun feed =>
    .ok (String.join (feed.map (fun item => item.Title ++ " " ++ item.Link ++ "\n")))

/-- An instance of the `podcast` parameters that reads the clock, for evaluating `Feed` at
two times: `now` is the time of the call, the feed is its last build date and the items
added so far.  As `podcast.New` does, `New` takes the time of the call as last build date
when it is given none; `AddItem` is as in `podcast.recorder`, and `Encode` writes the last
build date in seconds, then one line per item. -/
def podcast.stamped (now : time.Time) : podcast.Package (time.Time × List podcast.Item) where
  New := fun _ _ _ _ lastBuildDate => (lastBuildDate.getD now, [])
  AddItem := fun feed item =>
    if item.Title = "" ∨ item.Description = "" then
      .error "Title and Description are required"
    else
      .ok (feed.1, feed.2 ++ [item])
  Encode := fun feed =>
    .ok ("lastBuildDate " ++ toString feed.1.sec ++ "\n"
      ++ String.join (feed.2.map (fun item => item.Title ++ " " ++ item.Link ++ "\n")))

/-- Go standard library `t.IsZero()`: `t` is January 1 of year 1, 00:00:00 UTC, which is
62135596800 seconds before the Unix epoch. -/
def time.Time.IsZero (t : time.Time) : Bool :=
  t.sec = -62135596800 ∧ t.nsec = 0

/-- Package `podcast`: the time that `parseDateRFC1123Z` formats, which is the time it is
given, or the time of the call `now` when it is given `nil` or the zero time. -/
def podcast.dateOrNow (now : time.Time) (t : Option time.Time) : time.Time :=
  match t with
  | some t => if t.IsZero then now else t
  | none => now

/-- Package `podcast` as it answers at the time `now`, where `base` is what it does once
every date is settled: `New` settles the publication date and the last build date of the
feed with `parseDateRFC1123Z`, `AddItem` settles the publication date of the item, and
`Encode` reads no clock. -/
def podcast.Package.atTime {P : Type} (base : podcast.Package P) (now : time.Time) :
    podcast.Package P where
  New := fun title link description pubDate lastBuildDate =>
    base.New title link description (some (podcast.dateOrNow now pubDate))
      (some (podcast.dateOrNow now lastBuildDate))
  AddItem := fun feed item =>
    base.AddItem feed { item with PubDate := some (podcast.dateOrNow now item.PubDate) }
  Encode := base.Encode

/-- An instance of the `podcast` parameters that keeps the GUID rule of `AddItem`, for
evaluating the GUID that is emitted: the feed is the list of the items added so far,
`AddItem` refuses an item without title or description, gives an item with an empty GUID
the URL of its enclosure as GUID (its link when it has no enclosure) and appends it, and
`Encode` writes the `guid` element of each item. -/
def podcast.permalinked : podcast.Package (List podcast.Item) where
  New := fun _ _ _ _ _ => []
  AddItem := fun feed item =>
    if item.Title = "" ∨ item.Description = "" then
      .error "Title and Description are required"
    else
      match item.Enclosure with
      | some enclosure =>
        if item.GUID = "" then .ok (feed ++ [{ item with GUID := enclosure.URL }])
        else .ok (feed ++ [item])
      | none => .ok (feed ++ [{ item with GUID := item.Link }])
  Encode := fun feed =>
    .ok (String.join (feed.map (fun item => "<guid>" ++ item.GUID ++ "</guid>\n")))

/-! ## `GetIA` (`ia.go`, lines 175-197) -/

/-- The zero value of `IA`, as `var rtn IA` declares it. -/
def IA.zero {F : Type} : IA F :=
  { Created := 0, LastUpdate := 0, Files := [], Dir := "", Server := "", Servers := [],
    Metadata := { Identifier := "", Description := "", Title := "" } }

/-- What `GetIA` calls outside the repository, with `R` the type of a response body:
`http.Get(url)`, `io.ReadAll(resp.Body)`, and `json.Unmarshal(body, &rtn)`, which returns
`rtn` after the call and the error.  They are parameters of `GetIA`. -/
structure Upstream (F R : Type) where
  httpGet : String → Except String R
  readAll : R → Except String (List UInt8)
  jsonUnmarshal : List UInt8 → IA F → IA F × Option String

/-- Go: `func GetIA(identifier string) (IA, error)`; the result is the pair the Go function
returns, with `none` for a `nil` error. -/
def GetIA {F R : Type} (up : Upstream F R) (identifier : String) : IA F × Option String :=
  let rtn : IA F := IA.zero
  match up.httpGet (IAMetadataPrefix ++ identifier) with
  | .error err => (rtn, some err)
  | .ok resp =>
    match up.readAll resp with
    | .error err => (rtn, some err)
    | .ok body =>
      match up.jsonUnmarshal body rtn with
      | (rtn, some err) => (rtn, some err)
      | (rtn, none) => (rtn.OnlyOriginals, none)

/-! ## `getData` (`main.go`, lines 14-31) -/

/-- Go: `http.StatusBadGateway`. -/
def http.StatusBadGateway : Int := 502

/-- Go: `http.StatusOK`. -/
def http.StatusOK : Int := 200

/-- The response a handler has written through its `*gin.Context`: status code, headers
and body. -/
structure gin.Context where
  status : Int
  header : List (String × String)
  body : String
deriving DecidableEq, Repr

/-- The context a handler is called with: status 200, no header, nothing written. -/
def gin.Context.fresh : gin.Context :=
  { status := 200, header := [], body := "" }

/-- Package `gin`: `c.Header(key, value)`, which sets the header, or removes it when
`value` is empty. -/
def gin.Context.Header (c : gin.Context) (key value : String) : gin.Context :=
  if value = "" then
    { c with header := c.header.filter (fun kv => kv.1 ≠ key) }
  else
    { c with header := (key, value) :: c.header.filter (fun kv => kv.1 ≠ key) }

/-- Package `gin`: `c.String(code, format)` called without values: it sets the status,
sets `Content-Type` to plain text unless the header has one, and writes `format` as it
is. -/
def gin.Context.writeString (c : gin.Context) (code : Int) (format : String) : gin.Context :=
  { status := code
    header :=
      if (c.header.lookup "Content-Type").isNone then
        c.header ++ [("Content-Type", "text/plain; charset=utf-8")]
      else c.header
    body := c.body ++ format }

/-- Go: `func getData(c *gin.Context)`; `name` is `c.Param("name")`, the result is the
context after the call. -/
def getData {F R P : Type} (up : Upstream F R) (pkg : podcast.Package P) (name : String)
    (c : gin.Context) : gin.Context :=
  match GetIA up name with
  | (_, some err) =>
    c.writeString http.StatusBadGateway ("error while getting data: " ++ err)
  | (ia, none) =>
    match ia.Feed pkg with
    | (_, some err) =>
      c.writeString http.StatusBadGateway ("error while creating rss feed: " ++ err)
    | (reply, none) =>
      (c.Header "Content-Type" "application/rss+xml").writeString http.StatusOK reply

/-- An instance of the `Upstream` parameters for evaluating `getData`: the identifier
`demo` is answered with `demoFiles` as decoded item, `broken` is answered with a body
that does not decode, and any other identifier is not reached. -/
def demoUpstream (demoFiles : IA Int) : Upstream Int String where
  httpGet := fun url =>
    if url = "https://archive.org/metadata/demo" then .ok "demo"
    else if url = "https://archive.org/metadata/broken" then .ok "broken"
    else .error "no such host"
  readAll := fun resp => .ok (resp.data.flatMap String.utf8EncodeChar)
  jsonUnmarshal := fun body rtn =>
    if body = "demo".data.flatMap String.utf8EncodeChar then (demoFiles, none)
    else (rtn, some "unexpected end of JSON input")

/-! ## An instance of the `float64` parameters, for evaluation -/

/-- An instance of the `ParseFloat` parameter for evaluating `convertLength` on concrete
inputs, with `Int` for `F`: a non-empty token of decimal digits has its decimal value (the
value `strconv.ParseFloat` returns for it, exactly, below `2 ^ 53`, where sums and
products of such values are exact too), every other token is reported as invalid syntax.
Signs, fractions and exponents are not read. -/
def parseFloatDigits (s : String) : Except String Int :=
  if s.data ≠ [] ∧ s.data.all Char.isDigit = true then
    .ok (strconv.digitsValue s.data : Nat)
  else
    .error "invalid syntax"

/-- An item for evaluating `Feed`: files `cover.jpg`, `meta.xml`, `data.sqlite` and
`track.mp3`, on server `ia800.us.archive.org` in directory `/5/items/demo`. -/
def demoItem : IA Int :=
  { Created := 0
    LastUpdate := 0
    Dir := "/5/items/demo"
    Server := "ia800.us.archive.org"
    Servers := []
    Metadata := { Identifier := "demo", Description := "a demo", Title := "Demo" }
    Files := ["cover.jpg", "meta.xml", "data.sqlite", "track.mp3"].map
      (fun name => { (IAFiles.zero : IAFiles Int) with Name := name }) }

/-- The item `demoItem` with every file classified as `original`. -/
def demoOriginals : IA Int :=
  { demoItem with Files := demoItem.Files.map (fun f => { f with Source := "original" }) }

/-- An item for evaluating a failure of `AddItem`: `track.mp3` followed by an entry with
no name, title or album, which `podcast.recorder` refuses. -/
def untitledItem : IA Int :=
  { demoItem with
    Files := [{ (IAFiles.zero : IAFiles Int) with Name := "track.mp3", Source := "original" },
              { (IAFiles.zero : IAFiles Int) with Source := "original" }] }

/-- An item for evaluating the link of a file whose name has a space: the demo item with the
one file `a b.mp3`. -/
def spacedItem : IA Int :=
  { demoItem with Files := [{ (IAFiles.zero : IAFiles Int) with Name := "a b.mp3" }] }

/-- An item for evaluating the GUID of a file that has a content hash: the demo item with
the one file `track.mp3` and its `SHA1`. -/
def hashedItem : IA Int :=
  { demoItem with
    Files := [{ (IAFiles.zero : IAFiles Int) with
      Name := "track.mp3", SHA1 := "2fd4e1c67a2d28fced849ee1bb76e7391b93eb12" }] }

/-! ## Theorems -/

section OnlyOriginals

variable {F : Type}

/-- The loop appends to the accumulator exactly the entries that pass the test. -/
theorem onlyOriginalsLoop_eq_append_filter (acc files : List (IAFiles F)) :
    onlyOriginalsLoop acc files
      = acc ++ files.filter (fun f => decide (f.Source = IASourceOriginal)) := by
  induction files generalizing acc with
  | nil => simp [onlyOriginalsLoop]
  | cons file rest ih =>
    by_cases h : file.Source = IASourceOriginal
    · simp [onlyOriginalsLoop, h, ih]
    · simp [onlyOriginalsLoop, h, ih]

/-- Claim C1: after `OnlyOriginals` the `Files` list is the previous list filtered by
`Source = "original"`: a subsequence of the previous list (nothing added, duplicated or
reordered) that holds an entry exactly when the entry was there with source
`"original"`; with sources original, derivative, original the first and third entries
are kept, in that order. -/
theorem onlyOriginals_files_eq_filter (ia : IA F) :
    ia.OnlyOriginals.Files
        = ia.Files.filter (fun f => decide (f.Source = "original"))
      ∧ List.Sublist ia.OnlyOriginals.Files ia.Files
      ∧ (∀ f, f ∈ ia.OnlyOriginals.Files ↔ f ∈ ia.Files ∧ f.Source = "original")
      ∧ (∀ a b c : IAFiles F,
          ({ ia with Files := [{ a with Source := "original" },
                               { b with Source := "derivative" },
                               { c with Source := "original" }] } : IA F).OnlyOriginals.Files
            = [{ a with Source := "original" }, { c with Source := "original" }]) := by
  have hfilter : ia.OnlyOriginals.Files
      = ia.Files.filter (fun f => decide (f.Source = "original")) := by
    simp [IA.OnlyOriginals, onlyOriginalsLoop_eq_append_filter, IASourceOriginal]
  refine ⟨hfilter, ?_, ?_, ?_⟩
  · rw [hfilter]; exact List.filter_sublist _
  · intro f; rw [hfilter]; simp [List.mem_filter]
  · intro a b c
    simp [IA.OnlyOriginals, onlyOriginalsLoop, IASourceOriginal]

end OnlyOriginals

section ConvertLength

variable {F : Type} [NatCast F] [Add F] [Mul F]

/-- The scan of `strings.Split` always yields at least one token. -/
theorem strings.splitLoop_ne_nil (sep : Char) (cur rest : List Char) :
    strings.splitLoop sep cur rest ≠ [] := by
  induction rest generalizing cur with
  | nil => simp [strings.splitLoop]
  | cons c rest ih =>
    by_cases h : c = sep
    · simp [strings.splitLoop, h]
    · simpa [strings.splitLoop, h] using ih _

/-- Splitting any string yields at least one token. -/
theorem strings.Split_ne_nil (s : String) (sep : Char) : strings.Split s sep ≠ [] :=
  strings.splitLoop_ne_nil sep [] s.data

/-- Splitting the empty string yields the one token `""`. -/
theorem strings.Split_empty (sep : Char) : strings.Split "" sep = [""] := rfl

/-- Claim C2: when the input splits on `:` into one, two or three tokens that all parse,
`convertLength` returns no error and the value `s` for one token, `s + 60 * m` for two
tokens `m:s`, and `s + 60 * m + 3600 * h` for three tokens `h:m:s` (the sum written in
the order the code evaluates it).  `hempty` records that `strconv.ParseFloat` rejects the
empty string. -/
theorem convertLength_of_parsed_tokens (ParseFloat : String → Except String F)
    (hempty : ∀ v, ParseFloat "" ≠ .ok v) (inp : String) :
    (∀ p0 s, strings.Split inp ':' = [p0] → ParseFloat p0 = .ok s →
        convertLength ParseFloat inp = (s, none))
      ∧ (∀ p0 p1 m s, strings.Split inp ':' = [p0, p1] →
          ParseFloat p0 = .ok m → ParseFloat p1 = .ok s →
          convertLength ParseFloat inp = (s + ((60 : Nat) : F) * m, none))
      ∧ (∀ p0 p1 p2 h m s, strings.Split inp ':' = [p0, p1, p2] →
          ParseFloat p0 = .ok h → ParseFloat p1 = .ok m → ParseFloat p2 = .ok s →
          convertLength ParseFloat inp
            = (s + ((60 : Nat) : F) * m + ((3600 : Nat) : F) * h, none)) := by
  refine ⟨?_, ?_, ?_⟩
  · intro p0 s hsplit hp0
    have hne : inp ≠ "" := by
      rintro rfl
      rw [strings.Split_empty] at hsplit
      have : p0 = "" := by simpa using hsplit.symm
      exact hempty s (this ▸ hp0)
    simp [convertLength, hne, hsplit, hp0]
  · intro p0 p1 m s hsplit hp0 hp1
    have hne : inp ≠ "" := by
      rintro rfl
      rw [strings.Split_empty] at hsplit
      simp at hsplit
    simp [convertLength, hne, hsplit, hp0, hp1]
  · intro p0 p1 p2 h m s hsplit hp0 hp1 hp2
    have hne : inp ≠ "" := by
      rintro rfl
      rw [strings.Split_empty] at hsplit
      simp at hsplit
    simp [convertLength, hne, hsplit, hp0, hp1, hp2]

/-- The digit-token parser rejects the empty string, as `strconv.ParseFloat` does. -/
theorem parseFloatDigits_empty (v : Int) : parseFloatDigits "" ≠ .ok v := by
  simp [parseFloatDigits]

/-- Witness for C2: with tokens of decimal digits, `"83"` gives 83, `"3:45"` gives 225 and
`"1:02:03"` gives 3723, each with no error. -/
theorem convertLength_of_parsed_tokens_witness :
    convertLength parseFloatDigits "83" = ((83 : Int), none)
      ∧ convertLength parseFloatDigits "3:45" = ((225 : Int), none)
      ∧ convertLength parseFloatDigits "1:02:03" = ((3723 : Int), none) :=
  ⟨(convertLength_of_parsed_tokens parseFloatDigits parseFloatDigits_empty "83").1
      "83" 83 (by decide) (by decide),
   (convertLength_of_parsed_tokens parseFloatDigits parseFloatDigits_empty "3:45").2.1
      "3" "45" 3 45 (by decide) (by decide) (by decide),
   (convertLength_of_parsed_tokens parseFloatDigits parseFloatDigits_empty "1:02:03").2.2
      "1" "02" "03" 1 2 3 (by decide) (by decide) (by decide) (by decide)⟩

/-- Claim C3: `convertLength` returns an error exactly when the input is empty, or splits on
`:` into at most three tokens one of which `strconv.ParseFloat` rejects; the empty input
gives the `empty length` error. -/
theorem convertLength_error_iff (ParseFloat : String → Except String F) (inp : String) :
    ((convertLength ParseFloat inp).2 ≠ none ↔
        inp = "" ∨ ((strings.Split inp ':').length ≤ 3
          ∧ ∃ p ∈ strings.Split inp ':', ∃ e, ParseFloat p = .error e))
      ∧ convertLength ParseFloat "" = (((0 : Nat) : F), some LengthError.emptyLength) := by
  refine ⟨?_, by simp [convertLength]⟩
  by_cases hne : inp = ""
  · subst hne
    simp [convertLength]
  · rcases hsplit : strings.Split inp ':' with _ | ⟨p0, _ | ⟨p1, _ | ⟨p2, _ | ⟨p3, rest⟩⟩⟩⟩
    · exact absurd hsplit (strings.Split_ne_nil inp ':')
    · cases h0 : ParseFloat p0 <;> simp [convertLength, hne, hsplit, h0]
    · cases h0 : ParseFloat p0 <;> cases h1 : ParseFloat p1 <;>
        simp [convertLength, hne, hsplit, h0, h1]
    · cases h0 : ParseFloat p0 <;> cases h1 : ParseFloat p1 <;> cases h2 : ParseFloat p2 <;>
        simp [convertLength, hne, hsplit, h0, h1, h2]
    · simp [convertLength, hne, hsplit]

/-- Claim C4: when the input splits on `:` into four or more tokens, `convertLength` returns
0 and no error, whatever the tokens are and whatever `strconv.ParseFloat` makes of them. -/
theorem convertLength_four_or_more (ParseFloat : String → Except String F) (inp : String)
    (hlen : 4 ≤ (strings.Split inp ':').length) :
    convertLength ParseFloat inp = (((0 : Nat) : F), none) := by
  have hne : inp ≠ "" := by
    rintro rfl
    rw [strings.Split_empty] at hlen
    simp at hlen
  rcases hsplit : strings.Split inp ':' with _ | ⟨p0, _ | ⟨p1, _ | ⟨p2, _ | ⟨p3, rest⟩⟩⟩⟩
  all_goals first
    | (rw [hsplit] at hlen; simp at hlen; done)
    | simp [convertLength, hne, hsplit]

/-- Witness for C4: `"1:2:3:4"` has four tokens and gives 0 with no error, and so does
`"a:b:c:d"`, whose tokens are not numbers. -/
theorem convertLength_four_or_more_witness :
    convertLength parseFloatDigits "1:2:3:4" = ((0 : Int), none)
      ∧ convertLength parseFloatDigits "a:b:c:d" = ((0 : Int), none) :=
  ⟨convertLength_four_or_more parseFloatDigits "1:2:3:4" (by decide),
   convertLength_four_or_more parseFloatDigits "a:b:c:d" (by decide)⟩

end ConvertLength

section TitleDescription

variable {F : Type}

/-- Claim C5: `TitleDescription` returns the title, which is `Title` unless that is empty
and then `Name`, and the description, which is `Album` unless that is empty and then
`Name`; with `Title` and `Album` both empty, both results are `Name`. -/
theorem titleDescription_fallback (iaf : IAFiles F) :
    iaf.TitleDescription.1 = (if iaf.Title = "" then iaf.Name else iaf.Title)
      ∧ iaf.TitleDescription.2 = (if iaf.Album = "" then iaf.Name else iaf.Album)
      ∧ ({ iaf with Title := "", Album := "" } : IAFiles F).TitleDescription
          = (iaf.Name, iaf.Name) := by
  refine ⟨?_, ?_, ?_⟩
  · by_cases h : iaf.Title = "" <;> simp [IAFiles.TitleDescription, h]
  · by_cases h : iaf.Album = "" <;> simp [IAFiles.TitleDescription, h]
  · simp [IAFiles.TitleDescription]

end TitleDescription

section UnmarshalJSON

variable {F : Type} [NatCast F] [Add F] [Mul F]

/-- Claim C8: `UnmarshalJSON` never fails because of a typed conversion: whenever the data
decodes into a string-to-string map it returns no error, whatever `strconv.Atoi`,
`strconv.ParseFloat` and `convertLength` make of the `mtime`, `size` and `length` values;
the only error it returns is the one of `json.Unmarshal`, and then the receiver is left
as it was. -/
theorem unmarshalJSON_error_only_from_decode
    (jsonUnmarshal : List UInt8 → Except String StringMap)
    (ParseFloat : String → Except String F) (iaf : IAFiles F) (data : List UInt8) :
    (∀ raw, jsonUnmarshal data = .ok raw →
        (iaf.UnmarshalJSON jsonUnmarshal ParseFloat data).2 = none)
      ∧ (∀ err, (iaf.UnmarshalJSON jsonUnmarshal ParseFloat data).2 = some err ↔
          jsonUnmarshal data = .error err)
      ∧ (∀ err, jsonUnmarshal data = .error err →
          iaf.UnmarshalJSON jsonUnmarshal ParseFloat data = (iaf, some err)) := by
  refine ⟨?_, ?_, ?_⟩
  · intro raw h
    simp [IAFiles.UnmarshalJSON, h]
  · intro err
    cases h : jsonUnmarshal data <;> simp [IAFiles.UnmarshalJSON, h]
  · intro err h
    simp [IAFiles.UnmarshalJSON, h]

/-- Witness for C8: a map with a non-numeric `mtime`, an empty `size` and a `length` on
which `convertLength` errors decodes with no error. -/
theorem unmarshalJSON_error_only_from_decode_witness :
    convertLength parseFloatDigits "x:y" ≠ ((0 : Int), none)
      ∧ ((IAFiles.zero : IAFiles Int).UnmarshalJSON
          (fun _ => .ok [("name", "a.mp3"), ("mtime", "soon"), ("size", ""), ("length", "x:y")])
          parseFloatDigits []).2 = none :=
  ⟨by decide,
   (unmarshalJSON_error_only_from_decode
      (fun _ => .ok [("name", "a.mp3"), ("mtime", "soon"), ("size", ""), ("length", "x:y")])
      parseFloatDigits (IAFiles.zero : IAFiles Int) []).1 _ rfl⟩

/-- The empty string is not an integer for `strconv.Atoi`. -/
theorem strconv.Atoi_empty : strconv.Atoi "" = .error "invalid syntax" := rfl

/-- On a non-empty string of decimal digits whose value fits `int`, `strconv.Atoi` returns
that value. -/
theorem strconv.Atoi_digits (digits : List Char) (hne : digits ≠ [])
    (hdig : digits.all Char.isDigit = true) (hfit : strconv.digitsValue digits < 2 ^ 63) :
    strconv.Atoi (String.mk digits) = .ok (strconv.digitsValue digits : Nat) := by
  obtain ⟨c, rest, rfl⟩ := List.exists_cons_of_ne_nil hne
  have hc : c.isDigit = true := by
    simp only [List.all_cons, Bool.and_eq_true] at hdig
    exact hdig.1
  have hminus : c ≠ '-' := by rintro rfl; exact absurd hc (by decide)
  have hplus : c ≠ '+' := by rintro rfl; exact absurd hc (by decide)
  have hmatch : (match c :: rest with
      | '-' :: r => r
      | '+' :: r => r
      | all => all) = c :: rest := by
    split
    · rename_i h; simp at h; exact absurd h.1 hminus
    · rename_i h; simp at h; exact absurd h.1 hplus
    · rfl
  have hfit' : strconv.digitsValue (c :: rest) < 9223372036854775808 := by
    simpa using hfit
  simp only [strconv.Atoi, hmatch]
  simp [hminus, hdig, hfit']

/-- What a successful decode leaves in `Artist`, `MTime` and `Size`. -/
theorem unmarshalJSON_fields
    (jsonUnmarshal : List UInt8 → Except String StringMap)
    (ParseFloat : String → Except String F) (iaf : IAFiles F) (data : List UInt8)
    (raw : StringMap) (hraw : jsonUnmarshal data = .ok raw) :
    (iaf.UnmarshalJSON jsonUnmarshal ParseFloat data).1.Artist
        = (if raw.get "artist" = "" ∧ raw.get "creator" ≠ "" then raw.get "creator"
            else raw.get "artist")
      ∧ (iaf.UnmarshalJSON jsonUnmarshal ParseFloat data).1.MTime
        = (match strconv.Atoi (raw.get "mtime") with
            | .ok n => n
            | .error _ => iaf.MTime)
      ∧ (iaf.UnmarshalJSON jsonUnmarshal ParseFloat data).1.Size
        = (match strconv.Atoi (raw.get "size") with
            | .ok n => n
            | .error _ => iaf.Size) := by
  by_cases ha : raw.get "artist" = "" ∧ raw.get "creator" ≠ "" <;>
    cases h1 : strconv.Atoi (raw.get "mtime") <;>
    cases h2 : strconv.Atoi (raw.get "size") <;>
    rcases h3 : convertLength ParseFloat (raw.get "length") with ⟨l, _ | e⟩ <;>
    simp [IAFiles.UnmarshalJSON, hraw, h1, h2, h3, ha]

/-- Claim C9: decoding a string-to-string map into a fresh entry sets `MTime` to the value
`strconv.Atoi` reads from the `mtime` string, and to 0 when `strconv.Atoi` rejects the
string or the key is missing; a string of decimal digits whose value fits `int` is read
as its decimal value.  The same holds for `Size` and the `size` key. -/
theorem unmarshalJSON_mtime_size
    (jsonUnmarshal : List UInt8 → Except String StringMap)
    (ParseFloat : String → Except String F) (data : List UInt8) (raw : StringMap)
    (hraw : jsonUnmarshal data = .ok raw) :
    ((IAFiles.zero : IAFiles F).UnmarshalJSON jsonUnmarshal ParseFloat data).1.MTime
        = (match strconv.Atoi (raw.get "mtime") with
            | .ok n => n
            | .error _ => 0)
      ∧ ((IAFiles.zero : IAFiles F).UnmarshalJSON jsonUnmarshal ParseFloat data).1.Size
        = (match strconv.Atoi (raw.get "size") with
            | .ok n => n
            | .error _ => 0)
      ∧ (raw.lookup "mtime" = none →
          ((IAFiles.zero : IAFiles F).UnmarshalJSON jsonUnmarshal ParseFloat data).1.MTime = 0)
      ∧ (raw.lookup "size" = none →
          ((IAFiles.zero : IAFiles F).UnmarshalJSON jsonUnmarshal ParseFloat data).1.Size = 0)
      ∧ (∀ digits : List Char, digits ≠ [] → digits.all Char.isDigit = true →
          strconv.digitsValue digits < 2 ^ 63 → raw.get "mtime" = String.mk digits →
          ((IAFiles.zero : IAFiles F).UnmarshalJSON jsonUnmarshal ParseFloat data).1.MTime
            = (strconv.digitsValue digits : Nat))
      ∧ (∀ digits : List Char, digits ≠ [] → digits.all Char.isDigit = true →
          strconv.digitsValue digits < 2 ^ 63 → raw.get "size" = String.mk digits →
          ((IAFiles.zero : IAFiles F).UnmarshalJSON jsonUnmarshal ParseFloat data).1.Size
            = (strconv.digitsValue digits : Nat)) := by
  have hm : ((IAFiles.zero : IAFiles F).UnmarshalJSON jsonUnmarshal ParseFloat data).1.MTime
      = (match strconv.Atoi (raw.get "mtime") with
          | .ok n => n
          | .error _ => 0) :=
    (unmarshalJSON_fields jsonUnmarshal ParseFloat IAFiles.zero data raw hraw).2.1
  have hs : ((IAFiles.zero : IAFiles F).UnmarshalJSON jsonUnmarshal ParseFloat data).1.Size
      = (match strconv.Atoi (raw.get "size") with
          | .ok n => n
          | .error _ => 0) :=
    (unmarshalJSON_fields jsonUnmarshal ParseFloat IAFiles.zero data raw hraw).2.2
  refine ⟨hm, hs, ?_, ?_, ?_, ?_⟩
  · intro hmiss
    have : raw.get "mtime" = "" := by simp [StringMap.get, hmiss]
    rw [hm, this, strconv.Atoi_empty]
  · intro hmiss
    have : raw.get "size" = "" := by simp [StringMap.get, hmiss]
    rw [hs, this, strconv.Atoi_empty]
  · intro digits hne hdig hfit hget
    rw [hm, hget, strconv.Atoi_digits digits hne hdig hfit]
  · intro digits hne hdig hfit hget
    rw [hs, hget, strconv.Atoi_digits digits hne hdig hfit]

/-- Witness for C9: `mtime` `"1700000000"` is read as that number, a non-numeric `size`
and a missing `size` both leave 0. -/
theorem unmarshalJSON_mtime_size_witness :
    ((IAFiles.zero : IAFiles Int).UnmarshalJSON
        (fun _ => .ok [("mtime", "1700000000"), ("size", "big")]) parseFloatDigits []).1.MTime
        = 1700000000
      ∧ ((IAFiles.zero : IAFiles Int).UnmarshalJSON
        (fun _ => .ok [("mtime", "1700000000"), ("size", "big")]) parseFloatDigits []).1.Size
        = 0
      ∧ ((IAFiles.zero : IAFiles Int).UnmarshalJSON
        (fun _ => .ok [("mtime", "17")]) parseFloatDigits []).1.Size = 0 :=
  ⟨(unmarshalJSON_mtime_size (fun _ => .ok [("mtime", "1700000000"), ("size", "big")])
      parseFloatDigits [] _ rfl).1,
   (unmarshalJSON_mtime_size (fun _ => .ok [("mtime", "1700000000"), ("size", "big")])
      parseFloatDigits [] _ rfl).2.1,
   (unmarshalJSON_mtime_size (fun _ => .ok [("mtime", "17")])
      parseFloatDigits [] _ rfl).2.2.2.1 (by decide)⟩

/-- Claim C10: after decoding a string-to-string map, `Artist` is the `artist` value when
that is present and non-empty, and the `creator` value otherwise (the empty string when
both are missing or empty); a non-empty `artist` is never replaced by `creator`. -/
theorem unmarshalJSON_artist
    (jsonUnmarshal : List UInt8 → Except String StringMap)
    (ParseFloat : String → Except String F) (iaf : IAFiles F) (data : List UInt8)
    (raw : StringMap) (hraw : jsonUnmarshal data = .ok raw) :
    (iaf.UnmarshalJSON jsonUnmarshal ParseFloat data).1.Artist
        = (if raw.get "artist" ≠ "" then raw.get "artist" else raw.get "creator")
      ∧ (∀ v, raw.lookup "artist" = some v → v ≠ "" →
          (iaf.UnmarshalJSON jsonUnmarshal ParseFloat data).1.Artist = v)
      ∧ (raw.lookup "artist" = none →
          (iaf.UnmarshalJSON jsonUnmarshal ParseFloat data).1.Artist = raw.get "creator")
      ∧ (raw.lookup "artist" = some "" →
          (iaf.UnmarshalJSON jsonUnmarshal ParseFloat data).1.Artist = raw.get "creator")
      ∧ (raw.get "artist" = "" → raw.get "creator" = "" →
          (iaf.UnmarshalJSON jsonUnmarshal ParseFloat data).1.Artist = "") := by
  have h : (iaf.UnmarshalJSON jsonUnmarshal ParseFloat data).1.Artist
      = (if raw.get "artist" ≠ "" then raw.get "artist" else raw.get "creator") := by
    rw [(unmarshalJSON_fields jsonUnmarshal ParseFloat iaf data raw hraw).1]
    by_cases ha : raw.get "artist" = "" <;> by_cases hc : raw.get "creator" = "" <;>
      simp [ha, hc]
  refine ⟨h, ?_, ?_, ?_, ?_⟩
  · intro v hv hne
    have : raw.get "artist" = v := by simp [StringMap.get, hv]
    rw [h, this]; simp [hne]
  · intro hv
    have : raw.get "artist" = "" := by simp [StringMap.get, hv]
    rw [h, this]; simp
  · intro hv
    have : raw.get "artist" = "" := by simp [StringMap.get, hv]
    rw [h, this]; simp
  · intro ha hc
    rw [h, ha, hc]; simp

/-- Witness for C10: `artist` `"Ann"` wins over `creator` `"Bob"`, and without an `artist`
the `creator` `"Bob"` is taken. -/
theorem unmarshalJSON_artist_witness :
    ((IAFiles.zero : IAFiles Int).UnmarshalJSON
        (fun _ => .ok [("artist", "Ann"), ("creator", "Bob")]) parseFloatDigits []).1.Artist
        = "Ann"
      ∧ ((IAFiles.zero : IAFiles Int).UnmarshalJSON
        (fun _ => .ok [("creator", "Bob")]) parseFloatDigits []).1.Artist = "Bob" :=
  ⟨(unmarshalJSON_artist (fun _ => .ok [("artist", "Ann"), ("creator", "Bob")])
      parseFloatDigits IAFiles.zero [] _ rfl).2.1 "Ann" (by decide) (by decide),
   (unmarshalJSON_artist (fun _ => .ok [("creator", "Bob")])
      parseFloatDigits IAFiles.zero [] _ rfl).2.2.1 (by decide)⟩

end UnmarshalJSON

section Feed

variable {F P : Type}

/-- A successful run of the loop of `Feed` is a successful run of `AddItem` over the items
built for the entries that are not skipped, in their order, and conversely. -/
theorem feedLoop_eq_ok_iff (pkg : podcast.Package P) (ia : IA F) (files : List (IAFiles F))
    (feed result : P) :
    IA.feedLoop pkg ia feed files = .ok result ↔
      List.foldlM pkg.AddItem feed
        ((files.filter (fun entry => !entry.skipped)).map ia.feedItem) = .ok result := by
  induction files generalizing feed with
  | nil => simp [IA.feedLoop, pure, Except.pure]
  | cons entry rest ih =>
    by_cases hskip : entry.skipped = true
    · simp [IA.feedLoop, hskip, ih]
    · cases hadd : pkg.AddItem feed (ia.feedItem entry) with
      | error err => simp [IA.feedLoop, hskip, hadd, bind, Except.bind]
      | ok feed1 => simp [IA.feedLoop, hskip, hadd, bind, Except.bind, ih]

/-- No byte is written by `url.escapeByte` as a space, `/`, `?` or `#`. -/
theorem url.escapeByte_safe (b : UInt8) :
    ∀ c ∈ url.escapeByte b, c ≠ ' ' ∧ c ≠ '/' ∧ c ≠ '?' ∧ c ≠ '#' := by
  rcases b with ⟨v⟩
  revert v
  decide

/-- Claim C6: when `Feed` succeeds, the items it has added to the feed are the items built
for the entries of `Files` whose name does not end in `.xml`, `.jpg` or `.sqlite`, one per
entry and in the order of `Files`: adding exactly these, in this order, to the new feed
succeeds and gives the feed whose encoding `Feed` returns.  An entry with one of the three
suffixes gives no item and no error. -/
theorem feed_items_are_nonskipped_entries (pkg : podcast.Package P) (ia : IA F)
    (out : String) (hfeed : ia.Feed pkg = (out, none)) :
    ∃ feed,
      List.foldlM pkg.AddItem
          (pkg.New ia.Metadata.Title (IAItemPrefix ++ ia.Metadata.Identifier)
            ia.Metadata.Description (some (time.Unix ia.LastUpdate 0)) none)
          ((ia.Files.filter (fun entry =>
              !(strings.HasSuffix entry.Name ".xml" || strings.HasSuffix entry.Name ".jpg"
                || strings.HasSuffix entry.Name ".sqlite"))).map ia.feedItem) = .ok feed
        ∧ pkg.Encode feed = .ok out := by
  unfold IA.Feed at hfeed
  simp only at hfeed
  split at hfeed
  · simp at hfeed
  · rename_i feed hloop
    refine ⟨feed, (feedLoop_eq_ok_iff pkg ia ia.Files _ feed).1 hloop, ?_⟩
    split at hfeed
    · simp at hfeed
    · rename_i out1 henc
      simp only [Prod.mk.injEq, and_true] at hfeed
      rw [henc, hfeed]

/-- Witness for C6: with files `cover.jpg`, `meta.xml`, `data.sqlite` and `track.mp3`, `Feed`
succeeds and the only item is the one of `track.mp3`. -/
theorem feed_items_are_nonskipped_entries_witness :
    demoItem.Feed podcast.recorder
        = ("track.mp3 https://ia800.us.archive.org/5/items/demo/track.mp3\n", none)
      ∧ (demoItem.Files.filter (fun entry =>
            !(strings.HasSuffix entry.Name ".xml" || strings.HasSuffix entry.Name ".jpg"
              || strings.HasSuffix entry.Name ".sqlite"))).map demoItem.feedItem
          = [demoItem.feedItem { (IAFiles.zero : IAFiles Int) with Name := "track.mp3" }]
      ∧ ∃ feed,
          List.foldlM podcast.recorder.AddItem
              (podcast.recorder.New demoItem.Metadata.Title
                (IAItemPrefix ++ demoItem.Metadata.Identifier)
                demoItem.Metadata.Description (some (time.Unix demoItem.LastUpdate 0)) none)
              ((demoItem.Files.filter (fun entry =>
                  !(strings.HasSuffix entry.Name ".xml" || strings.HasSuffix entry.Name ".jpg"
                    || strings.HasSuffix entry.Name ".sqlite"))).map demoItem.feedItem)
              = .ok feed
            ∧ podcast.recorder.Encode feed
              = .ok "track.mp3 https://ia800.us.archive.org/5/items/demo/track.mp3\n" :=
  ⟨by decide, by decide,
   feed_items_are_nonskipped_entries podcast.recorder demoItem _ (by decide)⟩

end Feed

section OnlyOriginalsFrame

variable {F : Type}

/-- Claim C18: `OnlyOriginals` changes nothing but `Files`: `Created`, `LastUpdate`, `Dir`,
`Server`, `Servers` and `Metadata` are as before, and the entries of the new `Files` are
entries of the old `Files`, unchanged and in their old order. -/
theorem onlyOriginals_frame (ia : IA F) :
    ia.OnlyOriginals.Created = ia.Created
      ∧ ia.OnlyOriginals.LastUpdate = ia.LastUpdate
      ∧ ia.OnlyOriginals.Dir = ia.Dir
      ∧ ia.OnlyOriginals.Server = ia.Server
      ∧ ia.OnlyOriginals.Servers = ia.Servers
      ∧ ia.OnlyOriginals.Metadata = ia.Metadata
      ∧ ia.OnlyOriginals = { ia with Files := ia.OnlyOriginals.Files }
      ∧ (∀ f ∈ ia.OnlyOriginals.Files, f ∈ ia.Files)
      ∧ List.Sublist ia.OnlyOriginals.Files ia.Files := by
  have hfiles : ia.OnlyOriginals.Files
      = ia.Files.filter (fun f => decide (f.Source = IASourceOriginal)) := by
    simp [IA.OnlyOriginals, onlyOriginalsLoop_eq_append_filter]
  refine ⟨rfl, rfl, rfl, rfl, rfl, rfl, rfl, ?_, ?_⟩
  · intro f hf
    rw [hfiles] at hf
    exact (List.mem_filter.1 hf).1
  · rw [hfiles]
    exact List.filter_sublist _

/-- Claim C19: `OnlyOriginals` is idempotent, and after it every entry of `Files` has source
`"original"`. -/
theorem onlyOriginals_idempotent (ia : IA F) :
    ia.OnlyOriginals.OnlyOriginals = ia.OnlyOriginals
      ∧ ∀ f ∈ ia.OnlyOriginals.Files, f.Source = "original" := by
  have hfiles : ∀ x : IA F, x.OnlyOriginals.Files
      = x.Files.filter (fun f => decide (f.Source = IASourceOriginal)) := by
    intro x
    simp [IA.OnlyOriginals, onlyOriginalsLoop_eq_append_filter]
  constructor
  · have h2 : ia.OnlyOriginals.OnlyOriginals.Files = ia.OnlyOriginals.Files := by
      rw [hfiles ia.OnlyOriginals, hfiles ia, List.filter_filter]
      simp
    calc ia.OnlyOriginals.OnlyOriginals
        = { ia.OnlyOriginals with Files := ia.OnlyOriginals.OnlyOriginals.Files } := rfl
      _ = { ia.OnlyOriginals with Files := ia.OnlyOriginals.Files } := by rw [h2]
  · intro f hf
    rw [hfiles ia] at hf
    simpa [IASourceOriginal] using (List.mem_filter.1 hf).2

end OnlyOriginalsFrame

section ConvertLengthErrors

variable {F : Type} [NatCast F] [Add F] [Mul F]

/-- Claim C20: splitting any string on `:` yields at least one token, so `convertLength`
never returns the `no length` error. -/
theorem convertLength_never_noLength (ParseFloat : String → Except String F) (inp : String) :
    1 ≤ (strings.Split inp ':').length
      ∧ (convertLength ParseFloat inp).2 ≠ some LengthError.noLength := by
  have hlen : 1 ≤ (strings.Split inp ':').length := by
    have := strings.Split_ne_nil inp ':'
    cases h : strings.Split inp ':' with
    | nil => exact absurd h this
    | cons p ps => simp
  refine ⟨hlen, ?_⟩
  by_cases hne : inp = ""
  · subst hne
    simp [convertLength]
  · rcases hsplit : strings.Split inp ':' with _ | ⟨p0, _ | ⟨p1, _ | ⟨p2, _ | ⟨p3, rest⟩⟩⟩⟩
    · exact absurd hsplit (strings.Split_ne_nil inp ':')
    · cases h0 : ParseFloat p0 <;> simp [convertLength, hne, hsplit, h0]
    · cases h0 : ParseFloat p0 <;> cases h1 : ParseFloat p1 <;>
        simp [convertLength, hne, hsplit, h0, h1]
    · cases h0 : ParseFloat p0 <;> cases h1 : ParseFloat p1 <;> cases h2 : ParseFloat p2 <;>
        simp [convertLength, hne, hsplit, h0, h1, h2]
    · simp [convertLength, hne, hsplit]

/-- Counterexample to C17: `"abc"` is not empty and `convertLength` returns an error for it,
because `strconv.ParseFloat` rejects the token `abc`; so does `"1:x"`. -/
theorem convertLength_nonempty_error :
    "abc" ≠ ""
      ∧ convertLength parseFloatDigits "abc"
          = ((0 : Int), some (LengthError.converting "abc" "invalid syntax"))
      ∧ convertLength parseFloatDigits "1:x"
          = ((0 : Int), some (LengthError.convertingAt "1:x" 1 "invalid syntax")) := by
  decide

/-- Claim C17, amended: `convertLength` returns a value without error exactly when the
input is not empty and either splits on `:` into four or more tokens or has only tokens
that `strconv.ParseFloat` accepts; an unparsable token among at most three is an error
as the empty string is. -/
theorem convertLength_no_error_iff (ParseFloat : String → Except String F) (inp : String) :
    (convertLength ParseFloat inp).2 = none ↔
      inp ≠ "" ∧ (4 ≤ (strings.Split inp ':').length
        ∨ ∀ p ∈ strings.Split inp ':', ∃ v, ParseFloat p = .ok v) := by
  by_cases hne : inp = ""
  · subst hne
    simp [convertLength]
  · rcases hsplit : strings.Split inp ':' with _ | ⟨p0, _ | ⟨p1, _ | ⟨p2, _ | ⟨p3, rest⟩⟩⟩⟩
    · exact absurd hsplit (strings.Split_ne_nil inp ':')
    · cases h0 : ParseFloat p0 <;> simp [convertLength, hne, hsplit, h0]
    · cases h0 : ParseFloat p0 <;> cases h1 : ParseFloat p1 <;>
        simp [convertLength, hne, hsplit, h0, h1]
    · cases h0 : ParseFloat p0 <;> cases h1 : ParseFloat p1 <;> cases h2 : ParseFloat p2 <;>
        simp [convertLength, hne, hsplit, h0, h1, h2]
    · simp [convertLength, hne, hsplit]

end ConvertLengthErrors

section FeedItems

variable {F P : Type}

/-- Claim C16: `Feed` creates the feed with `podcast.New` from `Metadata.Title` as title,
`"https://archive.org/details"`, `"/"` and `Metadata.Identifier` as link,
`Metadata.Description` as description, `time.Unix(LastUpdate, 0)` as publication date and
no last build date; the result of `Feed` is what the loop and `Encode` make of this
feed. -/
theorem feed_channel_fields (pkg : podcast.Package P) (ia : IA F) :
    ia.Feed pkg
        = (match IA.feedLoop pkg ia
              (pkg.New ia.Metadata.Title
                ("https://archive.org/details" ++ "/" ++ ia.Metadata.Identifier)
                ia.Metadata.Description
                (some { sec := ia.LastUpdate, nsec := 0 }) none) ia.Files with
            | .error err => ("", some err)
            | .ok feed =>
              match pkg.Encode feed with
              | .error err => ("", some ("feed.Encode: " ++ err))
              | .ok out => (out, none))
      ∧ IAItemPrefix ++ ia.Metadata.Identifier
          = "https://archive.org/details" ++ "/" ++ ia.Metadata.Identifier := by
  have hlink : IAItemPrefix ++ ia.Metadata.Identifier
      = "https://archive.org/details" ++ "/" ++ ia.Metadata.Identifier := by
    rw [String.append_assoc]
    rfl
  refine ⟨?_, hlink⟩
  rw [← hlink]
  rfl

end FeedItems

section FeedErrors

variable {F P : Type}

/-- The loop of `Feed` ends in an error exactly when `AddItem` fails on one of the items
built for the entries that are not skipped, and the error is the one of `AddItem` behind
`feed.AddItem: `. -/
theorem feedLoop_eq_error_iff (pkg : podcast.Package P) (ia : IA F) (files : List (IAFiles F))
    (feed : P) (msg : String) :
    IA.feedLoop pkg ia feed files = .error msg ↔
      ∃ err, List.foldlM pkg.AddItem feed
          ((files.filter (fun entry => !entry.skipped)).map ia.feedItem) = .error err
        ∧ msg = "feed.AddItem: " ++ err := by
  induction files generalizing feed with
  | nil => simp [IA.feedLoop, pure, Except.pure]
  | cons entry rest ih =>
    by_cases hskip : entry.skipped = true
    · simp [IA.feedLoop, hskip, ih]
    · cases hadd : pkg.AddItem feed (ia.feedItem entry) with
      | error err =>
        simp only [IA.feedLoop, hskip, hadd, Bool.false_eq_true, if_false, Bool.not_eq_true,
          Bool.not_false, List.filter_cons_of_pos, List.map_cons, List.foldlM_cons, bind,
          Except.bind, Except.error.injEq]
        constructor
        · intro h; exact ⟨err, rfl, h.symm⟩
        · rintro ⟨e, he, rfl⟩; rw [he]
      | ok feed1 =>
        simp [IA.feedLoop, hskip, hadd, bind, Except.bind, ih]

/-- Claim C14: `Feed` returns no partial feed.  Whenever it returns an error the string is
empty; a failure of `AddItem` on any item, or of `Encode` on the complete feed, makes it
return that error with the empty string; and it returns no error only when every item was
added and `Encode` succeeded on the feed that holds them all. -/
theorem feed_all_or_nothing (pkg : podcast.Package P) (ia : IA F) :
    ((ia.Feed pkg).2 ≠ none → (ia.Feed pkg).1 = "")
      ∧ (∀ err,
          List.foldlM pkg.AddItem
              (pkg.New ia.Metadata.Title (IAItemPrefix ++ ia.Metadata.Identifier)
                ia.Metadata.Description (some (time.Unix ia.LastUpdate 0)) none)
              ((ia.Files.filter (fun entry => !entry.skipped)).map ia.feedItem) = .error err →
          ia.Feed pkg = ("", some ("feed.AddItem: " ++ err)))
      ∧ (∀ feed err,
          List.foldlM pkg.AddItem
              (pkg.New ia.Metadata.Title (IAItemPrefix ++ ia.Metadata.Identifier)
                ia.Metadata.Description (some (time.Unix ia.LastUpdate 0)) none)
              ((ia.Files.filter (fun entry => !entry.skipped)).map ia.feedItem) = .ok feed →
          pkg.Encode feed = .error err →
          ia.Feed pkg = ("", some ("feed.Encode: " ++ err)))
      ∧ (∀ out, ia.Feed pkg = (out, none) →
          ∃ feed,
            List.foldlM pkg.AddItem
                (pkg.New ia.Metadata.Title (IAItemPrefix ++ ia.Metadata.Identifier)
                  ia.Metadata.Description (some (time.Unix ia.LastUpdate 0)) none)
                ((ia.Files.filter (fun entry => !entry.skipped)).map ia.feedItem) = .ok feed
              ∧ pkg.Encode feed = .ok out) := by
  refine ⟨?_, ?_, ?_, ?_⟩
  · intro herr
    unfold IA.Feed at herr ⊢
    simp only at herr ⊢
    generalize IA.feedLoop pkg ia _ ia.Files = looped at herr ⊢
    cases looped with
    | error err => rfl
    | ok feed =>
      simp only at herr ⊢
      generalize pkg.Encode feed = encoded at herr ⊢
      cases encoded with
      | error err => rfl
      | ok out => exact absurd rfl herr
  · intro err hfold
    have hloop := (feedLoop_eq_error_iff pkg ia ia.Files _ ("feed.AddItem: " ++ err)).2
      ⟨err, hfold, rfl⟩
    unfold IA.Feed
    simp only [hloop]
  · intro feed err hfold henc
    have hloop := (feedLoop_eq_ok_iff pkg ia ia.Files _ feed).2 hfold
    unfold IA.Feed
    simp only [hloop, henc]
  · intro out hfeed
    unfold IA.Feed at hfeed
    simp only at hfeed
    split at hfeed
    · simp at hfeed
    · rename_i feed hloop
      refine ⟨feed, (feedLoop_eq_ok_iff pkg ia ia.Files _ feed).1 hloop, ?_⟩
      split at hfeed
      · simp at hfeed
      · rename_i out1 henc
        simp only [Prod.mk.injEq, and_true] at hfeed
        rw [henc, hfeed]

/-- Witness for C14: `track.mp3` is added, then `AddItem` refuses the entry without title,
and `Feed` returns the error with the empty string, not the feed holding `track.mp3`. -/
theorem feed_all_or_nothing_witness :
    untitledItem.Feed podcast.recorder
        = ("", some "feed.AddItem: Title and Description are required")
      ∧ (untitledItem.Feed podcast.recorder).1 = "" :=
  ⟨(feed_all_or_nothing podcast.recorder untitledItem).2.1
      "Title and Description are required" (by decide),
   (feed_all_or_nothing podcast.recorder untitledItem).1 (by decide)⟩

end FeedErrors

section GetData

variable {F R P : Type}

/-- Claim C15: the response of `getData`, written to a fresh context.  When `GetIA` fails
the status is 502, the body contains `getting data`, and the response is the same for
every `podcast` package (`Feed` plays no part); when `GetIA` succeeds and `Feed` fails the
status is 502 and the body contains `creating rss feed`; when both succeed the status is
200, `Content-Type` is `application/rss+xml` and the body is the string of `Feed`. -/
theorem getData_response (up : Upstream F R) (pkg : podcast.Package P) (name : String) :
    (∀ rtn err, GetIA up name = (rtn, some err) →
        (getData up pkg name gin.Context.fresh).status = 502
          ∧ (∃ before after, (getData up pkg name gin.Context.fresh).body
              = before ++ "getting data" ++ after)
          ∧ ∀ (Q : Type) (other : podcast.Package Q),
              getData up other name gin.Context.fresh = getData up pkg name gin.Context.fresh)
      ∧ (∀ ia out err, GetIA up name = (ia, none) → ia.Feed pkg = (out, some err) →
          (getData up pkg name gin.Context.fresh).status = 502
            ∧ ∃ before after, (getData up pkg name gin.Context.fresh).body
                = before ++ "creating rss feed" ++ after)
      ∧ (∀ ia reply, GetIA up name = (ia, none) → ia.Feed pkg = (reply, none) →
          (getData up pkg name gin.Context.fresh).status = 200
            ∧ (getData up pkg name gin.Context.fresh).header.lookup "Content-Type"
                = some "application/rss+xml"
            ∧ (getData up pkg name gin.Context.fresh).body = reply) := by
  refine ⟨?_, ?_, ?_⟩
  · intro rtn err hget
    have hresp : ∀ (Q : Type) (other : podcast.Package Q),
        getData up other name gin.Context.fresh
          = gin.Context.fresh.writeString http.StatusBadGateway
              ("error while getting data: " ++ err) := by
      intro Q other
      simp only [getData, hget]
    refine ⟨?_, ⟨"error while ", ": " ++ err, ?_⟩, ?_⟩
    · rw [hresp P pkg]; rfl
    · rw [hresp P pkg]
      simp only [gin.Context.writeString, gin.Context.fresh]
      rw [String.append_assoc]
      rfl
    · intro Q other
      rw [hresp Q other, hresp P pkg]
  · intro ia out err hget hfeed
    have hresp : getData up pkg name gin.Context.fresh
        = gin.Context.fresh.writeString http.StatusBadGateway
            ("error while creating rss feed: " ++ err) := by
      simp only [getData, hget, hfeed]
    refine ⟨?_, ⟨"error while ", ": " ++ err, ?_⟩⟩
    · rw [hresp]; rfl
    · rw [hresp]
      simp only [gin.Context.writeString, gin.Context.fresh]
      rw [String.append_assoc]
      rfl
  · intro ia reply hget hfeed
    have hresp : getData up pkg name gin.Context.fresh
        = (gin.Context.fresh.Header "Content-Type" "application/rss+xml").writeString
            http.StatusOK reply := by
      simp only [getData, hget, hfeed]
    refine ⟨?_, ?_, ?_⟩
    · rw [hresp]; rfl
    · rw [hresp]; rfl
    · rw [hresp]
      simp [gin.Context.writeString, gin.Context.Header, gin.Context.fresh]

/-- Witness for C15: an identifier whose body does not decode gives 502 with
`error while getting data: ...`; an item on which `AddItem` fails gives 502 with
`error while creating rss feed: ...`; the demo item gives 200 with the feed as body. -/
theorem getData_response_witness :
    (getData (demoUpstream demoOriginals) podcast.recorder "broken" gin.Context.fresh).status
        = 502
      ∧ (getData (demoUpstream untitledItem) podcast.recorder "demo" gin.Context.fresh).status
        = 502
      ∧ (getData (demoUpstream demoOriginals) podcast.recorder "demo" gin.Context.fresh).body
        = "track.mp3 https://ia800.us.archive.org/5/items/demo/track.mp3\n" :=
  ⟨((getData_response (demoUpstream demoOriginals) podcast.recorder "broken").1
      IA.zero "unexpected end of JSON input" (by decide)).1,
   ((getData_response (demoUpstream untitledItem) podcast.recorder "demo").2.1
      untitledItem "" "feed.AddItem: Title and Description are required"
      (by decide) (by decide)).1,
   ((getData_response (demoUpstream demoOriginals) podcast.recorder "demo").2.2
      demoOriginals "track.mp3 https://ia800.us.archive.org/5/items/demo/track.mp3\n"
      (by decide) (by decide)).2.2⟩

end GetData

section FeedClock

variable {F P : Type}

/-- Counterexample to C11: with a package that, as `podcast.New` does, takes the time of the
call as last build date when it is given none (and `Feed` gives none), two calls of `Feed`
on the same item at different times return different documents. -/
theorem feed_differs_with_clock :
    demoItem.Feed (podcast.stamped { sec := 0, nsec := 0 })
        = ("lastBuildDate 0\ntrack.mp3 https://ia800.us.archive.org/5/items/demo/track.mp3\n",
            none)
      ∧ demoItem.Feed (podcast.stamped { sec := 1, nsec := 0 })
        = ("lastBuildDate 1\ntrack.mp3 https://ia800.us.archive.org/5/items/demo/track.mp3\n",
            none)
      ∧ demoItem.Feed (podcast.stamped { sec := 0, nsec := 0 })
        ≠ demoItem.Feed (podcast.stamped { sec := 1, nsec := 0 }) := by
  decide

end FeedClock

section FeedBuilds

variable {F P : Type}

/-- What `Feed` returns, in terms of the package: the items built for the entries that are
not skipped are added in order to the new feed, and the feed is encoded; an error of
`AddItem` or of `Encode` is returned behind its prefix, with the empty string. -/
theorem feed_eq_addItems (pkg : podcast.Package P) (ia : IA F) :
    ia.Feed pkg
      = (match List.foldlM pkg.AddItem
            (pkg.New ia.Metadata.Title (IAItemPrefix ++ ia.Metadata.Identifier)
              ia.Metadata.Description (some (time.Unix ia.LastUpdate 0)) none)
            ((ia.Files.filter (fun entry => !entry.skipped)).map ia.feedItem) with
          | .error err => ("", some ("feed.AddItem: " ++ err))
          | .ok feed =>
            match pkg.Encode feed with
            | .error err => ("", some ("feed.Encode: " ++ err))
            | .ok out => (out, none)) := by
  cases hfold : List.foldlM pkg.AddItem
      (pkg.New ia.Metadata.Title (IAItemPrefix ++ ia.Metadata.Identifier)
        ia.Metadata.Description (some (time.Unix ia.LastUpdate 0)) none)
      ((ia.Files.filter (fun entry => !entry.skipped)).map ia.feedItem) with
  | error err =>
    have hloop := (feedLoop_eq_error_iff pkg ia ia.Files _ ("feed.AddItem: " ++ err)).2
      ⟨err, hfold, rfl⟩
    unfold IA.Feed
    simp only [hloop]
  | ok feed =>
    have hloop := (feedLoop_eq_ok_iff pkg ia ia.Files _ feed).2 hfold
    unfold IA.Feed
    simp only [hloop]

/-- A property that holds of every entry and the item built for it relates the entries to
the list of their items, position by position. -/
theorem forall₂_feedItem (ia : IA F) (entries : List (IAFiles F))
    (R : IAFiles F → podcast.Item → Prop) (hR : ∀ entry, R entry (ia.feedItem entry)) :
    List.Forall₂ R entries (entries.map ia.feedItem) := by
  rw [List.forall₂_map_right_iff, List.forall₂_same]
  intro entry _
  exact hR entry

/-- Claim C7: for every package, `Feed` adds to the feed one item per entry that is not
skipped, in the order of `Files`, and each of these items has the same string as `Link` and
as enclosure URL, `"https://" ++ Server ++ Dir ++ "/" ++ PathEscape(Name)`: `Server` and
`Dir` are copied as they are and only the name is escaped.  An escaped name has no space,
`/`, `?` or `#`.  With server `ia800.us.archive.org`, directory `/5/items/demo` and name
`a b.mp3`, link and enclosure URL of the item added are
`https://ia800.us.archive.org/5/items/demo/a%20b.mp3`. -/
theorem feed_link_and_enclosure_url (ia : IA F) :
    (∃ items : List podcast.Item,
        List.Forall₂
            (fun entry item =>
              item.Link = "https://" ++ ia.Server ++ ia.Dir ++ "/" ++ url.PathEscape entry.Name
                ∧ item.Enclosure.map (fun e => e.URL)
                  = some ("https://" ++ ia.Server ++ ia.Dir ++ "/"
                      ++ url.PathEscape entry.Name))
            (ia.Files.filter (fun entry =>
              !(strings.HasSuffix entry.Name ".xml" || strings.HasSuffix entry.Name ".jpg"
                || strings.HasSuffix entry.Name ".sqlite")))
            items
          ∧ ∀ (Q : Type) (pkg : podcast.Package Q),
              ia.Feed pkg
                = (match List.foldlM pkg.AddItem
                      (pkg.New ia.Metadata.Title (IAItemPrefix ++ ia.Metadata.Identifier)
                        ia.Metadata.Description (some (time.Unix ia.LastUpdate 0)) none)
                      items with
                    | .error err => ("", some ("feed.AddItem: " ++ err))
                    | .ok feed =>
                      match pkg.Encode feed with
                      | .error err => ("", some ("feed.Encode: " ++ err))
                      | .ok out => (out, none)))
      ∧ (∀ name : String, ∀ c ∈ (url.PathEscape name).data,
          c ≠ ' ' ∧ c ≠ '/' ∧ c ≠ '?' ∧ c ≠ '#')
      ∧ spacedItem.Feed podcast.recorder
          = ("a b.mp3 https://ia800.us.archive.org/5/items/demo/a%20b.mp3\n", none)
      ∧ (IA.feedLoop podcast.recorder spacedItem [] spacedItem.Files).map
            (List.map (fun item => (item.Link, item.Enclosure.map (fun e => e.URL))))
          = .ok [("https://ia800.us.archive.org/5/items/demo/a%20b.mp3",
                  some "https://ia800.us.archive.org/5/items/demo/a%20b.mp3")] := by
  refine ⟨⟨(ia.Files.filter (fun entry => !entry.skipped)).map ia.feedItem, ?_, ?_⟩,
    ?_, by decide, by decide⟩
  · exact forall₂_feedItem ia _ _ (fun _ => ⟨rfl, rfl⟩)
  · intro Q pkg
    exact feed_eq_addItems pkg ia
  · intro name c hc
    simp only [url.PathEscape, List.mem_flatMap] at hc
    obtain ⟨b, -, hb⟩ := hc
    exact url.escapeByte_safe b c hb

/-- Claim C13: for every package, `Feed` adds to the feed one item per entry that is not
skipped, in the order of `Files`, and each of these items has the entry's `Artist` as the
e-mail of its author (also when `Artist` is empty), `time.Unix(MTime, 0)` as publication
date, and an enclosure of length `Size` created with type argument 0.  On the demo item,
whose `track.mp3` has no artist, the item added has the empty string as author e-mail. -/
theorem feed_author_date_enclosure (ia : IA F) :
    (∃ items : List podcast.Item,
        List.Forall₂
            (fun entry item =>
              item.Author.map (fun a => a.Email) = some entry.Artist
                ∧ item.PubDate = some (time.Unix entry.MTime 0)
                ∧ item.PubDate.map (fun t => (t.sec, t.nsec)) = some (entry.MTime, 0)
                ∧ item.Enclosure.map (fun e => e.Length) = some entry.Size
                ∧ item.Enclosure.map (fun e => e.EnclosureType) = some 0)
            (ia.Files.filter (fun entry =>
              !(strings.HasSuffix entry.Name ".xml" || strings.HasSuffix entry.Name ".jpg"
                || strings.HasSuffix entry.Name ".sqlite")))
            items
          ∧ ∀ (Q : Type) (pkg : podcast.Package Q),
              ia.Feed pkg
                = (match List.foldlM pkg.AddItem
                      (pkg.New ia.Metadata.Title (IAItemPrefix ++ ia.Metadata.Identifier)
                        ia.Metadata.Description (some (time.Unix ia.LastUpdate 0)) none)
                      items with
                    | .error err => ("", some ("feed.AddItem: " ++ err))
                    | .ok feed =>
                      match pkg.Encode feed with
                      | .error err => ("", some ("feed.Encode: " ++ err))
                      | .ok out => (out, none)))
      ∧ (IA.feedLoop podcast.recorder demoItem [] demoItem.Files).map
            (List.map (fun item =>
              (item.Author.map (fun a => a.Email), item.PubDate.map (fun t => (t.sec, t.nsec)),
                item.Enclosure.map (fun e => (e.Length, e.EnclosureType)))))
          = .ok [(some "", some (0, 0), some (0, 0))] := by
  refine ⟨⟨(ia.Files.filter (fun entry => !entry.skipped)).map ia.feedItem, ?_, ?_⟩,
    by decide⟩
  · exact forall₂_feedItem ia _ _ (fun _ => ⟨rfl, rfl, rfl, rfl, rfl⟩)
  · intro Q pkg
    exact feed_eq_addItems pkg ia

/-- With the GUID rule of `AddItem`, the items added for a list of entries are appended to
the feed, one per entry, with the entry's `SHA1` as GUID, or the enclosure URL when `SHA1`
is empty. -/
theorem permalinked_foldlM_ok (ia : IA F) (entries : List (IAFiles F))
    (feed result : List podcast.Item)
    (hfold : List.foldlM podcast.permalinked.AddItem feed (entries.map ia.feedItem)
      = .ok result) :
    ∃ added, result = feed ++ added
      ∧ List.Forall₂
          (fun entry item =>
            item.GUID = (if entry.SHA1 = "" then
                "https://" ++ ia.Server ++ ia.Dir ++ "/" ++ url.PathEscape entry.Name
              else entry.SHA1))
          entries added := by
  induction entries generalizing feed with
  | nil =>
    refine ⟨[], ?_, List.Forall₂.nil⟩
    simp only [List.map_nil, List.foldlM_nil, pure, Except.pure, Except.ok.injEq] at hfold
    simp [← hfold]
  | cons entry rest ih =>
    simp only [List.map_cons, List.foldlM_cons, bind, Except.bind] at hfold
    by_cases htitle : (ia.feedItem entry).Title = "" ∨ (ia.feedItem entry).Description = ""
    · simp [podcast.permalinked, htitle] at hfold
    · by_cases hsha : entry.SHA1 = ""
      · have hadd : podcast.permalinked.AddItem feed (ia.feedItem entry)
            = .ok (feed ++ [{ ia.feedItem entry with
                GUID := "https://" ++ ia.Server ++ ia.Dir ++ "/"
                  ++ url.PathEscape entry.Name }]) := by
          have hguid : (ia.feedItem entry).GUID = "" := hsha
          simp only [podcast.permalinked, htitle, if_false]
          simp [IA.feedItem, podcast.Item.AddEnclosure, hsha]
        rw [hadd] at hfold
        obtain ⟨added, hres, hall⟩ := ih _ hfold
        refine ⟨({ ia.feedItem entry with
            GUID := "https://" ++ ia.Server ++ ia.Dir ++ "/"
              ++ url.PathEscape entry.Name } : podcast.Item) :: added,
          by simp [hres], List.Forall₂.cons ?_ hall⟩
        simp [hsha]
      · have hadd : podcast.permalinked.AddItem feed (ia.feedItem entry)
            = .ok (feed ++ [ia.feedItem entry]) := by
          simp only [podcast.permalinked, htitle, if_false]
          simp [IA.feedItem, podcast.Item.AddEnclosure, hsha]
        rw [hadd] at hfold
        obtain ⟨added, hres, hall⟩ := ih _ hfold
        refine ⟨ia.feedItem entry :: added, by simp [hres], List.Forall₂.cons ?_ hall⟩
        simp only [hsha, if_false]
        rfl

/-- Counterexample to C12: `track.mp3` of the demo item is not skipped and has the empty
string as `SHA1`; `Feed` succeeds, and the GUID that `AddItem` keeps and `Encode` writes for
it is the enclosure URL, not the `SHA1`. -/
theorem feed_guid_of_empty_sha1 :
    (demoItem.Files.filter (fun entry =>
          !(strings.HasSuffix entry.Name ".xml" || strings.HasSuffix entry.Name ".jpg"
            || strings.HasSuffix entry.Name ".sqlite"))).map (fun entry => entry.SHA1) = [""]
      ∧ demoItem.Feed podcast.permalinked
          = ("<guid>https://ia800.us.archive.org/5/items/demo/track.mp3</guid>\n", none)
      ∧ (IA.feedLoop podcast.permalinked demoItem [] demoItem.Files).map
            (List.map (fun item => item.GUID))
          = .ok ["https://ia800.us.archive.org/5/items/demo/track.mp3"] := by
  decide

/-- Claim C12, amended: for every package, `Feed` adds to the feed one item per entry that
is not skipped, in the order of `Files`, with the entry's `SHA1` as GUID, as it is.  With
the GUID rule of `AddItem`, when `Feed` succeeds the GUID emitted for an entry is its
`SHA1`, unchanged, when `SHA1` is not empty, and the enclosure URL when `SHA1` is empty. -/
theorem feed_guid_is_sha1_or_enclosure_url (ia : IA F) :
    (∃ items : List podcast.Item,
        List.Forall₂ (fun entry item => item.GUID = entry.SHA1)
            (ia.Files.filter (fun entry =>
              !(strings.HasSuffix entry.Name ".xml" || strings.HasSuffix entry.Name ".jpg"
                || strings.HasSuffix entry.Name ".sqlite")))
            items
          ∧ ∀ (Q : Type) (pkg : podcast.Package Q),
              ia.Feed pkg
                = (match List.foldlM pkg.AddItem
                      (pkg.New ia.Metadata.Title (IAItemPrefix ++ ia.Metadata.Identifier)
                        ia.Metadata.Description (some (time.Unix ia.LastUpdate 0)) none)
                      items with
                    | .error err => ("", some ("feed.AddItem: " ++ err))
                    | .ok feed =>
                      match pkg.Encode feed with
                      | .error err => ("", some ("feed.Encode: " ++ err))
                      | .ok out => (out, none)))
      ∧ (∀ out, ia.Feed podcast.permalinked = (out, none) →
          ∃ emitted : List podcast.Item,
            List.Forall₂
                (fun entry item =>
                  item.GUID = (if entry.SHA1 = "" then
                      "https://" ++ ia.Server ++ ia.Dir ++ "/" ++ url.PathEscape entry.Name
                    else entry.SHA1))
                (ia.Files.filter (fun entry =>
                  !(strings.HasSuffix entry.Name ".xml" || strings.HasSuffix entry.Name ".jpg"
                    || strings.HasSuffix entry.Name ".sqlite")))
                emitted
              ∧ out = String.join
                  (emitted.map (fun item => "<guid>" ++ item.GUID ++ "</guid>\n"))) := by
  refine ⟨⟨(ia.Files.filter (fun entry => !entry.skipped)).map ia.feedItem, ?_, ?_⟩, ?_⟩
  · exact forall₂_feedItem ia _ _ (fun _ => rfl)
  · intro Q pkg
    exact feed_eq_addItems pkg ia
  · intro out hfeed
    rw [feed_eq_addItems podcast.permalinked ia] at hfeed
    cases hfold : List.foldlM podcast.permalinked.AddItem
        (podcast.permalinked.New ia.Metadata.Title (IAItemPrefix ++ ia.Metadata.Identifier)
          ia.Metadata.Description (some (time.Unix ia.LastUpdate 0)) none)
        ((ia.Files.filter (fun entry => !entry.skipped)).map ia.feedItem) with
    | error err =>
      rw [hfold] at hfeed
      simp at hfeed
    | ok result =>
      rw [hfold] at hfeed
      obtain ⟨added, hres, hall⟩ := permalinked_foldlM_ok ia _ _ result hfold
      refine ⟨added, hall, ?_⟩
      have hnil : podcast.permalinked.New ia.Metadata.Title
          (IAItemPrefix ++ ia.Metadata.Identifier) ia.Metadata.Description
          (some (time.Unix ia.LastUpdate 0)) none = [] := rfl
      rw [hnil, List.nil_append] at hres
      subst hres
      simp only [podcast.permalinked, Prod.mk.injEq, and_true] at hfeed
      exact hfeed.symm

/-- Witness for C12, amended: `track.mp3` with a `SHA1` is emitted with that `SHA1` as
GUID. -/
theorem feed_guid_is_sha1_or_enclosure_url_witness :
    hashedItem.Feed podcast.permalinked
        = ("<guid>2fd4e1c67a2d28fced849ee1bb76e7391b93eb12</guid>\n", none)
      ∧ ∃ emitted : List podcast.Item,
          List.Forall₂
              (fun entry item =>
                item.GUID = (if entry.SHA1 = "" then
                    "https://" ++ hashedItem.Server ++ hashedItem.Dir ++ "/"
                      ++ url.PathEscape entry.Name
                  else entry.SHA1))
              (hashedItem.Files.filter (fun entry =>
                !(strings.HasSuffix entry.Name ".xml" || strings.HasSuffix entry.Name ".jpg"
                  || strings.HasSuffix entry.Name ".sqlite")))
              emitted
            ∧ "<guid>2fd4e1c67a2d28fced849ee1bb76e7391b93eb12</guid>\n"
              = String.join (emitted.map (fun item => "<guid>" ++ item.GUID ++ "</guid>\n")) :=
  ⟨by decide, (feed_guid_is_sha1_or_enclosure_url hashedItem).2 _ (by decide)⟩

end FeedBuilds

section FeedAtTime

variable {F P : Type}

/-- Two step functions that agree on every element of a list fold it alike. -/
theorem foldlM_congr_of_mem {α : Type} (f g : P → α → Except String P) (items : List α)
    (hfg : ∀ item ∈ items, ∀ feed, f feed item = g feed item) (feed : P) :
    List.foldlM f feed items = List.foldlM g feed items := by
  induction items generalizing feed with
  | nil => rfl
  | cons item rest ih =>
    simp only [List.foldlM_cons, bind, Except.bind]
    rw [hfg item (List.mem_cons_self _ _) feed]
    cases g feed item with
    | error err => rfl
    | ok next => exact ih (fun x hx => hfg x (List.mem_cons_of_mem _ hx)) next

/-- Claim C11, amended: the time of the call enters the result of `Feed` as the last build
date of the feed and nowhere else.  For an item whose `LastUpdate` and `MTime` values are
not the zero time, `Feed` called at the time `now` returns what the package makes, without
reading a clock, of the feed created with `now` as last build date and of the items built
from the entries that are not skipped; so the result depends only on the item and on
`now`. -/
theorem feed_clock_only_as_last_build_date (base : podcast.Package P) (ia : IA F)
    (now : time.Time)
    (hupdate : (time.Unix ia.LastUpdate 0).IsZero = false)
    (hmtime : ∀ entry ∈ ia.Files, (time.Unix entry.MTime 0).IsZero = false) :
    ia.Feed (base.atTime now)
      = (match List.foldlM base.AddItem
            (base.New ia.Metadata.Title (IAItemPrefix ++ ia.Metadata.Identifier)
              ia.Metadata.Description (some (time.Unix ia.LastUpdate 0)) (some now))
            ((ia.Files.filter (fun entry =>
                !(strings.HasSuffix entry.Name ".xml" || strings.HasSuffix entry.Name ".jpg"
                  || strings.HasSuffix entry.Name ".sqlite"))).map ia.feedItem) with
          | .error err => ("", some ("feed.AddItem: " ++ err))
          | .ok feed =>
            match base.Encode feed with
            | .error err => ("", some ("feed.Encode: " ++ err))
            | .ok out => (out, none)) := by
  rw [feed_eq_addItems (base.atTime now) ia]
  have hnew : (base.atTime now).New ia.Metadata.Title (IAItemPrefix ++ ia.Metadata.Identifier)
        ia.Metadata.Description (some (time.Unix ia.LastUpdate 0)) none
      = base.New ia.Metadata.Title (IAItemPrefix ++ ia.Metadata.Identifier)
        ia.Metadata.Description (some (time.Unix ia.LastUpdate 0)) (some now) := by
    simp [podcast.Package.atTime, podcast.dateOrNow, hupdate]
  have hadd : ∀ item ∈ (ia.Files.filter (fun entry => !entry.skipped)).map ia.feedItem,
      ∀ feed, (base.atTime now).AddItem feed item = base.AddItem feed item := by
    intro item hitem feed
    obtain ⟨entry, hentry, rfl⟩ := List.mem_map.1 hitem
    have hzero := hmtime entry (List.mem_filter.1 hentry).1
    have hdate : podcast.dateOrNow now (ia.feedItem entry).PubDate
        = time.Unix entry.MTime 0 := by
      show podcast.dateOrNow now (some (time.Unix entry.MTime 0)) = time.Unix entry.MTime 0
      simp [podcast.dateOrNow, hzero]
    show base.AddItem feed
        { ia.feedItem entry with
          PubDate := some (podcast.dateOrNow now (ia.feedItem entry).PubDate) }
      = base.AddItem feed (ia.feedItem entry)
    rw [hdate]
    rfl
  rw [hnew, foldlM_congr_of_mem _ _ _ hadd]
  rfl

/-- Witness for C11, amended: the demo item has no zero time, and `Feed` called at second 5
returns the document with 5 as last build date. -/
theorem feed_clock_only_as_last_build_date_witness :
    demoItem.Feed ((podcast.stamped { sec := 0, nsec := 0 }).atTime { sec := 5, nsec := 0 })
      = ("lastBuildDate 5\ntrack.mp3 https://ia800.us.archive.org/5/items/demo/track.mp3\n",
          none) :=
  feed_clock_only_as_last_build_date (podcast.stamped { sec := 0, nsec := 0 }) demoItem
    { sec := 5, nsec := 0 } (by decide) (by decide)

end FeedAtTime

end Lyiapf
